import Mathlib

/-!
# Verification of the telegram-executor execution core

A shallow embedding, in Lean 4, of the parts of the `telegram-executor`
repository that the verified properties talk about:

* the execution registry (`internal/executions/executions.go`): the
  process-wide store of in-flight executions and the active-prompt singleton;
* the `/execute` HTTP handler and its validation helpers
  (`internal/http`, file with `ExecuteHandler`);
* the submission coordinator (`internal/telegram/service.go`,
  `SubmitExecution`);
* the closing-note computation and label resolution
  (`internal/telegram/handlers`, `internal/telegram/shared/messages.go`);
* the markup escaping helpers (`internal/telegram/shared/markup.go`);
* the voice-audio normalizer (`normalizeVoiceAudio` and
  `isOpenAICompatibleAudio`).

Go maps are embedded as functions `String → Option _` (registry) or as
association lists (decoded JSON objects); Go `int` is embedded as `Int`;
byte slices as `List Nat`.  External collaborators (the Telegram client,
ffmpeg, the JSON formatter used by `fmt.Sprintf("%v", _)`) enter as
explicit oracle parameters, so every embedded function is pure and
executable.
-/

namespace TelegramExecutor

/-! ## Go string primitives

`strings.TrimSpace` trims the characters for which Go's `unicode.IsSpace`
holds; `strings.ToLower` lower-cases (the strings compared in this
development are ASCII, so per-character ASCII folding is the exact
behaviour).  Both are modelled on `List Char` and lifted to `String`.
-/

/-- Go `unicode.IsSpace`: the Unicode White_Space property
(U+0009..U+000D, space, NEL, NBSP, and the higher space code points). -/
def goIsSpace (c : Char) : Bool :=
  let n := c.toNat
  n == 9 || n == 10 || n == 11 || n == 12 || n == 13 || n == 32 ||
  n == 133 || n == 160 || n == 0x1680 ||
  (decide (0x2000 ≤ n) && decide (n ≤ 0x200A)) ||
  n == 0x2028 || n == 0x2029 || n == 0x202F || n == 0x205F || n == 0x3000

/-- Drop leading Go whitespace from a character list. -/
def goTrimLeft (l : List Char) : List Char := l.dropWhile goIsSpace

/-- Drop trailing Go whitespace from a character list. -/
def goTrimRight (l : List Char) : List Char :=
  (l.reverse.dropWhile goIsSpace).reverse

/-- `strings.TrimSpace` on a character list. -/
def goTrimSpaceL (l : List Char) : List Char := goTrimRight (goTrimLeft l)

/-- Go `strings.TrimSpace`. -/
def goTrimSpace (s : String) : String := (goTrimSpaceL s.toList).asString

/-- Go `strings.ToLower` on a character list (ASCII folding). -/
def goToLowerL (l : List Char) : List Char := l.map Char.toLower

/-- Go `strings.ToLower`. -/
def goToLower (s : String) : String := (goToLowerL s.toList).asString

/-- Go `strings.HasSuffix` (on the underlying characters). -/
def goHasSuffix (s suffixStr : String) : Bool :=
  suffixStr.toList.isSuffixOf s.toList

/-! ## Execution registry (`internal/executions/executions.go`)

`Registry.executions` embeds the Go `map[string]*Execution` as a partial
function; the mutex serializes every operation in the source, so each
registry method becomes one pure state transformer.  Opaque payload
fields that no embedded operation reads (`Tool` metadata beyond the name,
`Arguments`, `Spec`, `CustomLabel` content, `CreatedAt`) are carried in
`Request` only where an embedded function consumes them. -/

/-- `executions.Request` (the fields read by the embedded operations). -/
structure Request where
  correlationID : String
  toolName : String
  question : String
  context : String
  options : List String
  allowCustom : Bool
  lang : String
  markup : String
  callbackURL : String
deriving DecidableEq, Repr

/-- `executions.Execution` (the wall-clock `CreatedAt` field is not
observable by any verified operation and is omitted). -/
structure Execution where
  request : Request
  messageID : Int
  messageText : String
  awaitingText : Bool
deriving DecidableEq, Repr

/-- `executions.Registry`: the execution map plus the active-prompt
singleton `(promptCorrelation, promptMessageID)`. -/
structure Registry where
  executions : String → Option Execution
  promptMessageID : Int
  promptCorrelation : String

/-- `executions.NewRegistry`. -/
def Registry.init : Registry :=
  { executions := fun _ => none, promptMessageID := 0, promptCorrelation := "" }

/-- The fresh `Execution` literal allocated by `Registry.Add`. -/
def newExecution (req : Request) : Execution :=
  { request := req, messageID := 0, messageText := "", awaitingText := false }

/-- Result of `Registry.Add`: the new execution (or `none` on
`ErrAlreadyExists`) and the post state. -/
structure AddOut where
  added : Option Execution
  state : Registry

/-- `Registry.Add`. -/
def Registry.add (r : Registry) (req : Request) : AddOut :=
  match r.executions req.correlationID with
  | some _ => { added := none, state := r }
  | none =>
    let e := newExecution req
    { added := some e
      state := { r with
        executions := fun id => if id = req.correlationID then some e else r.executions id } }

/-- In-place update of one map entry (a no-op when the key is absent),
matching Go's mutation through the stored `*Execution`. -/
def updateExec (f : String → Option Execution) (id : String)
    (g : Execution → Execution) : String → Option Execution :=
  fun x => if x = id then (f x).map g else f x

/-- `Registry.SetMessage`. -/
def Registry.setMessage (r : Registry) (id : String) (messageID : Int)
    (messageText : String) : Registry :=
  let g := fun e => { e with messageID := messageID, messageText := messageText }
  { r with executions := updateExec r.executions id g }

/-- Result of `Registry.StartCustomInput`: the previous prompt message id
to delete, the ok flag, and the post state. -/
structure StartCustomOut where
  previousPrompt : Int
  ok : Bool
  state : Registry

/-- `Registry.StartCustomInput`. -/
def Registry.startCustomInput (r : Registry) (id : String) : StartCustomOut :=
  match r.executions id with
  | none => { previousPrompt := 0, ok := false, state := r }
  | some _ =>
    let swap := r.promptCorrelation ≠ "" ∧ r.promptCorrelation ≠ id
    let execs1 := if swap then
        updateExec r.executions r.promptCorrelation (fun e => { e with awaitingText := false })
      else r.executions
    let previousPrompt := if swap then r.promptMessageID else 0
    { previousPrompt := previousPrompt
      ok := true
      state := { executions := updateExec execs1 id (fun e => { e with awaitingText := true })
                 promptMessageID := 0
                 promptCorrelation := id } }

/-- `Registry.SetPromptMessage`. -/
def Registry.setPromptMessage (r : Registry) (id : String) (messageID : Int) : Registry :=
  if r.promptCorrelation = id then { r with promptMessageID := messageID } else r

/-- Result of `Registry.ClearPrompt`: the removed prompt message id and
the post state. -/
structure ClearPromptOut where
  removed : Int
  state : Registry

/-- `Registry.ClearPrompt`. -/
def Registry.clearPrompt (r : Registry) (id : String) : ClearPromptOut :=
  if r.promptCorrelation ≠ id then { removed := 0, state := r }
  else
    { removed := r.promptMessageID
      state := { executions := updateExec r.executions id (fun e => { e with awaitingText := false })
                 promptMessageID := 0
                 promptCorrelation := "" } }

/-- `Registry.CurrentPrompt`. -/
def Registry.currentPrompt (r : Registry) : Option (Execution × Int) :=
  if r.promptCorrelation = "" then none
  else
    match r.executions r.promptCorrelation with
    | none => none
    | some e => if e.awaitingText then some (e, r.promptMessageID) else none

/-- Result of `Registry.Resolve`: the removed execution, the prompt
message id to delete, the ok flag, and the post state. -/
structure ResolveOut where
  execution : Option Execution
  promptID : Int
  ok : Bool
  state : Registry

/-- `Registry.Resolve`. -/
def Registry.resolve (r : Registry) (id : String) : ResolveOut :=
  match r.executions id with
  | none => { execution := none, promptID := 0, ok := false, state := r }
  | some e =>
    let execs := fun x => if x = id then none else r.executions x
    if r.promptCorrelation = id then
      { execution := some e, promptID := r.promptMessageID, ok := true
        state := { executions := execs, promptMessageID := 0, promptCorrelation := "" } }
    else
      { execution := some e, promptID := 0, ok := true
        state := { r with executions := execs } }

/-! ## Registry operation traces (for the singleton invariant) -/

/-- One registry operation, as named in the spec's invariant. -/
inductive RegOp where
  | add (req : Request)
  | setMessage (id : String) (messageID : Int) (messageText : String)
  | startCustomInput (id : String)
  | setPromptMessage (id : String) (messageID : Int)
  | clearPrompt (id : String)
  | resolve (id : String)
deriving Repr

/-- Whether an operation respects the data model's requirement that
correlation ids are non-empty strings (`Add` is the only entry point). -/
def RegOp.addsNonempty : RegOp → Bool
  | .add req => req.correlationID != ""
  | _ => true

/-- Apply one operation to the registry (discarding its return values). -/
def RegOp.apply (r : Registry) : RegOp → Registry
  | .add req => (r.add req).state
  | .setMessage id mid mtext => r.setMessage id mid mtext
  | .startCustomInput id => (r.startCustomInput id).state
  | .setPromptMessage id mid => r.setPromptMessage id mid
  | .clearPrompt id => (r.clearPrompt id).state
  | .resolve id => (r.resolve id).state

/-- Run a trace of registry operations from a starting state. -/
def runOps (r : Registry) (ops : List RegOp) : Registry :=
  ops.foldl RegOp.apply r

/-- The active-prompt singleton invariant: either the singleton is empty
and no live execution awaits text, or the singleton names a live
execution that awaits text and every other live execution does not. -/
def promptInvariant (r : Registry) : Prop :=
  (r.promptCorrelation = "" ∧
    ∀ id e, r.executions id = some e → e.awaitingText = false) ∨
  (r.promptCorrelation ≠ "" ∧
    (∃ e, r.executions r.promptCorrelation = some e ∧ e.awaitingText = true) ∧
    ∀ id e, r.executions id = some e → id ≠ r.promptCorrelation → e.awaitingText = false)

/-- Auxiliary strengthening: the empty string is never a live key. -/
def registryInv (r : Registry) : Prop :=
  r.executions "" = none ∧ promptInvariant r

/-! ## Decoded JSON values (Go `any` after `encoding/json`)

`encoding/json` decodes objects to `map[string]any`; numbers arrive as
`float64`.  The embedded `extractInt` models the integral numbers the
validation logic compares against bounds (`vInt`); non-scalar payloads
that no verified code inspects are `vObj`. -/

/-- A decoded Go `any` value. -/
inductive GoVal where
  | vNull
  | vStr (s : String)
  | vBool (b : Bool)
  | vInt (n : Int)
  | vArr (xs : List GoVal)
  | vObj

/-- A decoded Go `map[string]any` (a `nil` map behaves as the empty list). -/
abbrev GoMap := List (String × GoVal)

/-- Go map indexing `data[key]`. -/
def mapLookup (m : GoMap) (key : String) : Option GoVal :=
  (m.find? (fun p => p.1 == key)).map (·.2)

/-! ## `/execute` validation helpers (`internal/http`, `ExecuteHandler` file) -/

/-- `extractString`: a string value under `key`, trimmed, non-empty. -/
def extractString (data : GoMap) (key : String) : Option String :=
  match mapLookup data key with
  | some (.vStr v) =>
    let v := goTrimSpace v
    if v = "" then none else some v
  | _ => none

/-- `extractBool`. -/
def extractBool (data : GoMap) (key : String) : Option Bool :=
  match mapLookup data key with
  | some (.vBool b) => some b
  | _ => none

/-- `extractInt` (the Go `int`/`int32`/`int64`/`float64` cases collapse to
the integral numbers `vInt`; `nil` and other shapes are rejected). -/
def extractInt (data : GoMap) (key : String) : Option Int :=
  match mapLookup data key with
  | some (.vInt n) => some n
  | _ => none

/-- `optionLimitsFromSpec`: defaults `(2, 5)`; `spec.options_min`
overrides when positive, `spec.options_max` when at least the effective
minimum. -/
def optionLimitsFromSpec (spec : GoMap) : Int × Int :=
  let minOptions : Int := 2
  let maxOptions : Int := 5
  let minOptions :=
    match extractInt spec "options_min" with
    | some v => if v > 0 then v else minOptions
    | none => minOptions
  let maxOptions :=
    match extractInt spec "options_max" with
    | some v => if v ≥ minOptions then v else maxOptions
    | none => maxOptions
  (minOptions, maxOptions)

/-- The per-item body of the `extractOptions` loop. -/
def validateOption (idx : Nat) (item : GoVal) : Except String String :=
  match item with
  | .vStr value =>
    let value := goTrimSpace value
    if value = "" then .error s!"options[{idx}] is empty"
    else if (value.length : Int) > 300 then
      .error s!"options[{idx}] must be <= 300 characters"
    else .ok value
  | _ => .error s!"options[{idx}] must be string"

/-- The `extractOptions` loop over the decoded array. -/
def extractOptionsLoop (items : List GoVal) (idx : Nat) : Except String (List String) :=
  match items with
  | [] => .ok []
  | item :: rest =>
    match validateOption idx item with
    | .error e => .error e
    | .ok v =>
      match extractOptionsLoop rest (idx + 1) with
      | .error e => .error e
      | .ok vs => .ok (v :: vs)

/-- `extractOptions`. -/
def extractOptions (arguments : GoMap) (minOptions maxOptions : Int) :
    Except String (List String) :=
  match mapLookup arguments "options" with
  | none => .error "options is required"
  | some .vNull => .error "options is required"
  | some (.vArr items) =>
    if (items.length : Int) < minOptions ∨ (items.length : Int) > maxOptions then
      .error s!"options count must be {minOptions}-{maxOptions}"
    else extractOptionsLoop items 0
  | some _ => .error "options must be array"

/-- The tuple produced by `parseFeedbackArgs`. -/
structure FeedbackArgs where
  question : String
  contextValue : String
  options : List String
  allowCustom : Bool
deriving DecidableEq, Repr

/-- `parseFeedbackArgs`. -/
def parseFeedbackArgs (arguments spec : GoMap) : Except String FeedbackArgs :=
  match extractString arguments "question" with
  | none => .error "question is required"
  | some question =>
    if question.length < 10 ∨ question.length > 1000 then
      .error "question must be 10-1000 characters"
    else
      let contextValue := (extractString arguments "context").getD ""
      if contextValue.length > 2000 then .error "context must be <= 2000 characters"
      else
        let limits := optionLimitsFromSpec spec
        match extractOptions arguments limits.1 limits.2 with
        | .error e => .error e
        | .ok options =>
          let allowCustom := true
          let allowCustom := (extractBool spec "allow_custom_option").getD allowCustom
          let allowCustom := (extractBool arguments "allow_custom").getD allowCustom
          .ok { question := question, contextValue := contextValue
                options := options, allowCustom := allowCustom }

/-- `normalizeLang`. -/
def normalizeLang (value fallback : String) : String :=
  let value := goTrimSpace (goToLower value)
  if value = "ru" ∨ value = "en" then value
  else
    let fallback := goTrimSpace (goToLower fallback)
    if fallback = "ru" ∨ fallback = "en" then fallback else "en"

/-! ## Submission coordinator (`internal/telegram/service.go`) -/

/-- `executions.Result`. -/
structure Result where
  status : String
  output : GoVal
  note : String

/-- Outcome of `Service.SubmitExecution`: the returned `Result`, whether
a non-nil Go error was returned, and the registry state afterwards. -/
structure SubmitOut where
  result : Result
  isErr : Bool
  state : Registry

/-- `Service.SubmitExecution`.  The Telegram send is external: `sendOk`
says whether `bot.SendMessage` succeeded, and on success `sentMessageID`
and `renderedText` stand for the accepted message id and the output of
`renderMessage` (pure rendering whose content the verified claims do not
inspect).  `scheduleTimeout` spawns a timer goroutine and performs no
immediate registry mutation. -/
def submitExecution (r : Registry) (req : Request) (sendOk : Bool)
    (sentMessageID : Int) (renderedText : String) : SubmitOut :=
  let a := r.add req
  match a.added with
  | none =>
    { result := { status := "error", output := .vStr "execution already exists", note := "" }
      isErr := false, state := a.state }
  | some _ =>
    if sendOk then
      { result := { status := "pending", output := .vStr "queued", note := "" }
        isErr := false
        state := a.state.setMessage req.correlationID sentMessageID renderedText }
    else
      { result := { status := "error", output := .vStr "failed to send telegram message", note := "" }
        isErr := true, state := a.state }

/-! ## `ExecuteHandler.ServeHTTP` -/

/-- The decoded `/execute` request body (after JSON decoding; `arguments`
and `callback` may be JSON `null`, hence `Option`). -/
structure ExecuteRequest where
  correlationID : String
  toolName : String
  arguments : Option GoMap
  spec : GoMap
  lang : String
  markup : String
  callbackURL : Option String
  timeoutSec : Int

/-- An HTTP response produced by `ExecuteHandler.respond`. -/
structure HttpResponse where
  code : Nat
  status : String
  result : GoVal
  correlationID : Option String

/-- The validation prefix of `ServeHTTP` (everything before
`SubmitExecution`), returning either the error message answered with
HTTP 400 or the `executions.Request` that is submitted. -/
def validateExecuteRequest (cfgLang : String) (req : ExecuteRequest) :
    Except String Request :=
  if goTrimSpace req.correlationID = "" then .error "correlation_id is required"
  else if goTrimSpace req.toolName = "" then .error "tool.name is required"
  else
    let arguments := req.arguments.getD []
    let markup := if goTrimSpace req.markup = "" then "markdown" else req.markup
    if ¬(goToLower (goTrimSpace markup) = "markdown" ∨
         goToLower (goTrimSpace markup) = "html") then
      .error "markup must be markdown or html"
    else
      let lang := normalizeLang req.lang cfgLang
      if req.callbackURL = none ∨ goTrimSpace ((req.callbackURL).getD "") = "" then
        .error "callback.url is required for async execution"
      else
        match parseFeedbackArgs arguments req.spec with
        | .error e => .error e
        | .ok fa =>
          .ok { correlationID := req.correlationID
                toolName := req.toolName
                question := fa.question
                context := fa.contextValue
                options := fa.options
                allowCustom := fa.allowCustom
                lang := lang
                markup := markup
                callbackURL := (req.callbackURL).getD "" }

/-- `ExecuteHandler.ServeHTTP` after JSON decoding: validation, then
`SubmitExecution`, then the response dispatch of its result.  `sendOk`,
`sentMessageID` and `renderedText` are the Telegram-send oracle as in
`submitExecution`. -/
def serveHTTP (cfgLang : String) (req : ExecuteRequest) (sendOk : Bool)
    (sentMessageID : Int) (renderedText : String) (st : Registry) :
    HttpResponse × Registry :=
  match validateExecuteRequest cfgLang req with
  | .error msg =>
    ({ code := 400, status := "error", result := .vStr msg, correlationID := none }, st)
  | .ok ereq =>
    let out := submitExecution st ereq sendOk sentMessageID renderedText
    if out.isErr ∧ out.result.status = "" then
      ({ code := 500, status := "error", result := .vStr "execution failed",
         correlationID := none }, out.state)
    else
      ({ code := 202, status := out.result.status, result := out.result.output,
         correlationID := some req.correlationID }, out.state)

/-! ## Localized messages (`internal/i18n`) and label resolution -/

/-- `i18n.Messages`. -/
structure Messages where
  executionTitle : String := ""
  executionCorrelation : String := ""
  executionTool : String := ""
  executionParams : String := ""
  sectionContext : String := ""
  sectionAction : String := ""
  sectionParams : String := ""
  questionLabel : String := ""
  contextLabel : String := ""
  optionsLabel : String := ""
  customOptionButton : String := ""
  cancelCustomButton : String := ""
  deleteButton : String := ""
  customPrompt : String := ""
  selectedNote : String := ""
  timeoutNote : String := ""
  errorNote : String := ""
  invalidAction : String := ""
  alreadyResolved : String := ""
  invalidChat : String := ""
  voiceDisabled : String := ""
  transcriptionFailed : String := ""
deriving DecidableEq, Repr

/-- Association-list lookup standing for the Go
`map[string]i18n.Messages` index. -/
def msgLookup (messages : List (String × Messages)) (key : String) : Option Messages :=
  (messages.find? (fun p => p.1 == key)).map (·.2)

/-- `shared.MessagesFor` (`internal/telegram/shared/messages.go`). -/
def MessagesFor (messages : List (String × Messages)) (lang fallbackLang : String) :
    Messages :=
  let lang := goToLower (goTrimSpace lang)
  let lang := if lang = "" then goToLower (goTrimSpace fallbackLang) else lang
  match msgLookup messages lang with
  | some msg => msg
  | none =>
    match msgLookup messages "en" with
    | some msg => msg
    | none => {}

/-- `Handler.messageFor` (the update dispatcher's copy; the blank-language
fallback takes `defaultLang` verbatim). -/
def handlerMessageFor (messages : List (String × Messages)) (defaultLang : String)
    (lang : String) : Messages :=
  let lang := goToLower (goTrimSpace lang)
  let lang := if lang = "" then defaultLang else lang
  match msgLookup messages lang with
  | some msg => msg
  | none =>
    match msgLookup messages "en" with
    | some msg => msg
    | none => {}

/-! ## Closing-note computation (`Handler.noteForResult`) -/

/-- `Handler.noteForResult`.  `fmtV` is Go's `fmt.Sprintf("%v", _)`
rendering of an arbitrary decoded value (an external library function,
passed as an oracle and shared by implementation and specification). -/
def noteForResult (fmtV : GoVal → String) (msg : Messages) (result : Result)
    (timeoutMessage : String) : String :=
  if result.status = "success" then
    if goTrimSpace result.note ≠ "" then result.note
    else
      match result.output with
      | .vNull => "✅ " ++ msg.selectedNote
      | out => "✅ " ++ fmtV out
  else if result.status = "error" then
    let fromOutput : Option String :=
      match result.output with
      | .vStr value =>
        if goTrimSpace value = "execution timeout" then
          some (if goTrimSpace timeoutMessage ≠ "" then timeoutMessage
                else "⏱️ " ++ msg.timeoutNote)
        else if goTrimSpace value ≠ "" then some ("⚠️ " ++ value)
        else none
      | _ => none
    match fromOutput with
    | some s => s
    | none =>
      if goTrimSpace result.note ≠ "" then result.note
      else "⚠️ " ++ msg.errorNote
  else ""

/-- The dispatcher deletes the superseded prompt message only when
`StartCustomInput` returned a positive id (`startCustomPrompt`). -/
def deletesPreviousPrompt (previousPromptID : Int) : Bool :=
  previousPromptID > 0

/-! ## Markup escaping (`internal/telegram/shared/markup.go`) -/

/-- `escapeWithSet` on a character list. -/
def escapeWithSet (specials : List Char) : List Char → List Char
  | [] => []
  | c :: rest =>
    (if c ∈ specials then ['\\', c] else [c]) ++ escapeWithSet specials rest

/-- The `EscapeMarkdownV2` special set (the Go literal
contains underscore, star, brackets, parens, tilde, backtick, angle,
hash, plus, minus, equals, pipe, braces, dot, bang, backslash). -/
def markdownV2Specials : List Char :=
  ['_', '*', '[', ']', '(', ')', '~', Char.ofNat 96, '>', '#', '+', '-',
   '=', '|', Char.ofNat 123, Char.ofNat 125, '.', '!', '\\']

/-- The `EscapeMarkdownV2Code` special set: backslash and backtick. -/
def markdownV2CodeSpecials : List Char := ['\\', Char.ofNat 96]

/-- `shared.EscapeMarkdownV2`. -/
def EscapeMarkdownV2 (s : String) : String :=
  (escapeWithSet markdownV2Specials s.toList).asString

/-- `shared.EscapeMarkdownV2Code`. -/
def EscapeMarkdownV2Code (s : String) : String :=
  (escapeWithSet markdownV2CodeSpecials s.toList).asString

/-- `shared.EscapeHTML` on characters: the five-entity replacer. -/
def escapeHTMLList : List Char → List Char
  | [] => []
  | c :: rest =>
    (if c = '&' then "&amp;".toList
     else if c = '<' then "&lt;".toList
     else if c = '>' then "&gt;".toList
     else if c = Char.ofNat 34 then "&quot;".toList
     else if c = Char.ofNat 39 then "&#39;".toList
     else [c]) ++ escapeHTMLList rest

/-- `shared.EscapeHTML`. -/
def EscapeHTML (s : String) : String := (escapeHTMLList s.toList).asString

/-- Modelled from the spec: Telegram's MarkdownV2 decoding of escapes
(external to this repository) — a backslash makes the immediately
following character literal; other characters stand for themselves. -/
def decodeMarkdownV2L : List Char → List Char
  | [] => []
  | c :: rest =>
    if c = '\\' then
      match rest with
      | [] => ['\\']
      | d :: rest2 => d :: decodeMarkdownV2L rest2
    else c :: decodeMarkdownV2L rest

/-- Modelled from the spec: Telegram's MarkdownV2 escape decoding, on
strings. -/
def decodeMarkdownV2 (s : String) : String := (decodeMarkdownV2L s.toList).asString

/-- Modelled from the spec: HTML entity decoding for the five entities
the escaper emits (external to this repository). -/
def decodeHTMLL : List Char → List Char
  | [] => []
  | c :: rest =>
    if c = '&' then
      if "amp;".toList.isPrefixOf rest then '&' :: decodeHTMLL (rest.drop 4)
      else if "lt;".toList.isPrefixOf rest then '<' :: decodeHTMLL (rest.drop 3)
      else if "gt;".toList.isPrefixOf rest then '>' :: decodeHTMLL (rest.drop 3)
      else if "quot;".toList.isPrefixOf rest then Char.ofNat 34 :: decodeHTMLL (rest.drop 5)
      else if "#39;".toList.isPrefixOf rest then Char.ofNat 39 :: decodeHTMLL (rest.drop 4)
      else c :: decodeHTMLL rest
    else c :: decodeHTMLL rest
termination_by l => l.length
decreasing_by
  all_goals simp [List.length_drop]
  all_goals omega

/-- Modelled from the spec: HTML entity decoding, on strings. -/
def decodeHTML (s : String) : String := (decodeHTMLL s.toList).asString

/-! ## Voice normalizer (`normalizeVoiceAudio`, `isOpenAICompatibleAudio`) -/

/-- The accepted MIME family. -/
def acceptedMimes : List String :=
  ["audio/mpeg", "audio/mp3", "audio/mp4", "audio/mp4a-latm", "audio/x-m4a",
   "audio/m4a", "audio/wav", "audio/x-wav", "audio/webm"]

/-- The accepted filename extensions. -/
def acceptedExts : List String := [".mp3", ".mpeg", ".mp4", ".m4a", ".wav", ".webm"]

/-- `isOpenAICompatibleAudio`. -/
def isOpenAICompatibleAudio (mimeType filename : String) : Bool :=
  (mimeType != "" && acceptedMimes.contains (goToLower (goTrimSpace mimeType))) ||
  (let lowerName := goToLower (goTrimSpace filename)
   lowerName != "" && acceptedExts.any (fun ext => goHasSuffix lowerName ext))

/-- Go `filepath.Ext`: the suffix beginning at the final dot in the final
path element (empty when that element has no dot). -/
def filepathExt (filename : String) : String :=
  let r := filename.toList.reverse
  let pre := r.takeWhile (fun c => c != '.' && c != '/')
  match r.drop pre.length with
  | '.' :: _ => ('.' :: pre.reverse).asString
  | _ => ""

/-- `normalizeFilename`. -/
def normalizeFilename (filename : String) : String :=
  if goTrimSpace filename = "" then "voice.mp3"
  else if goHasSuffix (goToLower filename) ".mp3" then filename
  else
    let ext := filepathExt filename
    if ext ≠ "" then
      (filename.toList.take (filename.toList.length - ext.toList.length)).asString ++ ".mp3"
    else filename ++ ".mp3"

/-- The outcome of `normalizeVoiceAudio`. -/
inductive NormalizeOut where
  | err (msg : String)
  | ok (content : List Nat) (mime : String) (filename : String)
deriving DecidableEq, Repr

/-- `normalizeVoiceAudio`.  The ffmpeg subprocess is external: `transcode`
returns the transcoded bytes or `none` on a non-zero exit. -/
def normalizeVoiceAudio (transcode : List Nat → Option (List Nat))
    (content : List Nat) (mimeType filename : String) : NormalizeOut :=
  if content.length = 0 then .err "empty audio content"
  else
    let lowerMime := goToLower (goTrimSpace mimeType)
    if isOpenAICompatibleAudio lowerMime filename then .ok content mimeType filename
    else
      match transcode content with
      | none => .err "ffmpeg failed"
      | some out =>
        if out.length = 0 then .err "empty transcoded audio"
        else .ok out "audio/mpeg" (normalizeFilename filename)

/-! ## Specification-side definitions (for refinement claims)

These restate claim wording, to be compared with the definitions
embedded from the source. -/

/-- The closing note as the specification/claim words it: for `success`,
the note verbatim when non-blank, else `✅ <output>` when the output is
non-nil, else `✅ <SelectedNote>`; for `error`, the configured timeout
message (or `⏱️ <TimeoutNote>`) when the output trims to
`execution timeout`, else `⚠️ <string>` for any other non-blank string
output, else the note when non-blank, else `⚠️ <ErrorNote>`; the empty
note for any other status. -/
def noteForResultSpec (fmtV : GoVal → String) (msg : Messages) (result : Result)
    (timeoutMessage : String) : String :=
  if result.status = "success" then
    if goTrimSpace result.note ≠ "" then result.note
    else
      match result.output with
      | .vNull => "✅ " ++ msg.selectedNote
      | out => "✅ " ++ fmtV out
  else if result.status = "error" then
    match result.output with
    | .vStr s =>
      if goTrimSpace s = "execution timeout" then
        if goTrimSpace timeoutMessage ≠ "" then timeoutMessage
        else "⏱️ " ++ msg.timeoutNote
      else if goTrimSpace s ≠ "" then "⚠️ " ++ s
      else if goTrimSpace result.note ≠ "" then result.note
      else "⚠️ " ++ msg.errorNote
    | _ =>
      if goTrimSpace result.note ≠ "" then result.note
      else "⚠️ " ++ msg.errorNote
  else ""

/-- From the claim: `options_min` defaults to 2, overridden by
`spec.options_min` when positive. -/
def specOptionsMin (spec : GoMap) : Int :=
  match extractInt spec "options_min" with
  | some v => if v > 0 then v else 2
  | none => 2

/-- From the claim: `options_max` defaults to 5, overridden by
`spec.options_max` when at least the effective minimum. -/
def specOptionsMax (spec : GoMap) : Int :=
  match extractInt spec "options_max" with
  | some v => if v ≥ specOptionsMin spec then v else 5
  | none => 5

/-- The amended label-resolution order: the requested code (lower-cased
and trimmed) is the lookup key when non-blank, otherwise the default key
takes its place; an unknown key falls back directly to `en`, then to the
all-blank label set.  (The process default is consulted only for a blank
request code.) -/
def labelResolutionAmended (messages : List (String × Messages))
    (reqKey defaultKey : String) : Messages :=
  let key := if reqKey = "" then defaultKey else reqKey
  match msgLookup messages key with
  | some msg => msg
  | none =>
    match msgLookup messages "en" with
    | some msg => msg
    | none => {}

/-! ## Concrete inputs used by the witnesses -/

/-- A Russian label set distinct from the English one. -/
def mRU : Messages := { selectedNote := "ru-note" }

/-- An English label set. -/
def mEN : Messages := { selectedNote := "en-note" }

/-- A concrete execution request. -/
def reqA : Request :=
  { correlationID := "r1", toolName := "t", question := "Question??"
    context := "", options := ["A", "B"], allowCustom := true
    lang := "en", markup := "markdown", callbackURL := "http://cb" }

/-- A second concrete execution request. -/
def reqB : Request := { reqA with correlationID := "r2" }

/-- A concrete registry: `r1` live and owning the active prompt with
prompt message id `7`. -/
def wreg : Registry :=
  { executions := fun id => if id = "r1" then some (newExecution reqA) else none
    promptMessageID := 7
    promptCorrelation := "r1" }

/-- A concrete registry-operation trace. -/
def wops : List RegOp :=
  [.add reqA, .startCustomInput "r1", .setPromptMessage "r1" 7,
   .add reqB, .startCustomInput "r2", .setPromptMessage "r2" 9, .resolve "r2"]

/-- A concrete decoded `/execute` body that passes validation. -/
def wexecReq : ExecuteRequest :=
  { correlationID := "r1", toolName := "t"
    arguments := some [("question", .vStr "Question??"),
                       ("options", .vArr [.vStr "A", .vStr "B"])]
    spec := [], lang := "", markup := "", callbackURL := some "http://cb"
    timeoutSec := 0 }

end TelegramExecutor

namespace TelegramExecutor

/-! # Theorems -/

/-! ## Small facts about the registry embedding -/

theorem updateExec_ne (f : String → Option Execution) (id : String)
    (g : Execution → Execution) (x : String) (h : x ≠ id) :
    updateExec f id g x = f x := by
  simp [updateExec, h]

theorem updateExec_self (f : String → Option Execution) (id : String)
    (g : Execution → Execution) :
    updateExec f id g id = (f id).map g := by
  simp [updateExec]

/-- C1: for every correlation id, `Resolve` succeeds at most once per
registration: the first call removes the execution and, when that
execution owned the active prompt, clears the singleton and returns its
prompt message id (otherwise the singleton fields are untouched and the
returned prompt id is 0); resolving the same id again finds the
execution absent, returns not-ok, and leaves the registry unchanged. -/
theorem C1_resolve_at_most_once (r : Registry) (id : String) (e : Execution)
    (h : r.executions id = some e) :
    (r.resolve id).ok = true ∧ (r.resolve id).execution = some e ∧
    (r.resolve id).state.executions id = none ∧
    (∀ x, x ≠ id → (r.resolve id).state.executions x = r.executions x) ∧
    (r.promptCorrelation = id →
      (r.resolve id).promptID = r.promptMessageID ∧
      (r.resolve id).state.promptCorrelation = "" ∧
      (r.resolve id).state.promptMessageID = 0) ∧
    (r.promptCorrelation ≠ id →
      (r.resolve id).promptID = 0 ∧
      (r.resolve id).state.promptCorrelation = r.promptCorrelation ∧
      (r.resolve id).state.promptMessageID = r.promptMessageID) ∧
    (r.resolve id).state.resolve id =
      { execution := none, promptID := 0, ok := false, state := (r.resolve id).state } := by
  by_cases hpc : r.promptCorrelation = id <;>
    simp [Registry.resolve, h, hpc] <;>
    intro x hx <;> simp [hx]

/-- C1 witness: the theorem applied to the concrete registry `wreg`
at id `r1`. -/
theorem C1_witness :
    wreg.executions "r1" = some (newExecution reqA) ∧
    (wreg.resolve "r1").ok = true ∧
    (wreg.resolve "r1").state.executions "r1" = none := by
  refine ⟨by decide, ?_, ?_⟩
  · exact (C1_resolve_at_most_once wreg "r1" (newExecution reqA) (by decide)).1
  · exact (C1_resolve_at_most_once wreg "r1" (newExecution reqA) (by decide)).2.2.1

theorem updateExec_some_iff (f : String → Option Execution) (id : String)
    (g : Execution → Execution) (x : String) (e' : Execution) :
    updateExec f id g x = some e' ↔
      ∃ e, f x = some e ∧ e' = if x = id then g e else e := by
  by_cases hx : x = id <;>
    simp [updateExec, hx, Option.map_eq_some', eq_comm]

theorem updateExec_none (f : String → Option Execution) (id : String)
    (g : Execution → Execution) (x : String) (h : f x = none) :
    updateExec f id g x = none := by
  simp [updateExec, h]

/-- Preservation of the strengthened singleton invariant by every single
registry operation whose `Add` id is non-empty. -/
theorem registryInv_apply (r : Registry) (op : RegOp)
    (h : registryInv r) (hop : op.addsNonempty = true) :
    registryInv (op.apply r) := by
  obtain ⟨hkey, hinv⟩ := h
  cases op with
  | add req =>
    have hne : req.correlationID ≠ "" := by
      simpa [RegOp.addsNonempty, bne_iff_ne] using hop
    cases hex : r.executions req.correlationID with
    | some e => simp only [RegOp.apply, Registry.add, hex]; exact ⟨hkey, hinv⟩
    | none =>
      simp only [RegOp.apply, Registry.add, hex]
      refine ⟨?_, ?_⟩
      · show (if "" = req.correlationID then some (newExecution req)
              else r.executions "") = none
        rw [if_neg (fun hh => hne hh.symm)]
        exact hkey
      · rcases hinv with ⟨hpc, hall⟩ | ⟨hpc, ⟨e0, he0, ha0⟩, hothers⟩
        · left
          refine ⟨hpc, fun id e hid => ?_⟩
          dsimp only at hid
          by_cases hc : id = req.correlationID
          · subst hc
            rw [if_pos rfl] at hid
            cases hid
            rfl
          · rw [if_neg hc] at hid
            exact hall id e hid
        · right
          have hpcnc : r.promptCorrelation ≠ req.correlationID := by
            intro hh
            rw [hh, hex] at he0
            cases he0
          refine ⟨hpc, ⟨e0, ?_, ha0⟩, fun id e hid hidpc => ?_⟩
          · show (if r.promptCorrelation = req.correlationID then some (newExecution req)
                  else r.executions r.promptCorrelation) = some e0
            rw [if_neg hpcnc]
            exact he0
          · dsimp only at hid hidpc
            by_cases hc : id = req.correlationID
            · subst hc
              rw [if_pos rfl] at hid
              cases hid
              rfl
            · rw [if_neg hc] at hid
              exact hothers id e hid hidpc
  | setMessage id mid mtext =>
    simp only [RegOp.apply, Registry.setMessage]
    refine ⟨?_, ?_⟩
    · exact updateExec_none _ _ _ _ hkey
    · rcases hinv with ⟨hpc, hall⟩ | ⟨hpc, ⟨e0, he0, ha0⟩, hothers⟩
      · left
        refine ⟨hpc, fun x e' hx => ?_⟩
        obtain ⟨e, he, rfl⟩ := (updateExec_some_iff _ _ _ _ _).1 hx
        have := hall x e he
        split <;> simpa using this
      · right
        refine ⟨hpc, ⟨?_, ?_, ?_⟩, fun x e' hx hxpc => ?_⟩
        · exact if r.promptCorrelation = id
            then { e0 with messageID := mid, messageText := mtext } else e0
        · rw [updateExec_some_iff]
          exact ⟨e0, he0, rfl⟩
        · split <;> simpa using ha0
        · obtain ⟨e, he, rfl⟩ := (updateExec_some_iff _ _ _ _ _).1 hx
          have := hothers x e he hxpc
          split <;> simpa using this
  | startCustomInput id =>
    cases hex : r.executions id with
    | none => simp only [RegOp.apply, Registry.startCustomInput, hex]; exact ⟨hkey, hinv⟩
    | some e0 =>
      have hid : id ≠ "" := by
        intro hh
        rw [hh, hkey] at hex
        cases hex
      by_cases hswap : r.promptCorrelation ≠ "" ∧ r.promptCorrelation ≠ id
      · simp only [RegOp.apply, Registry.startCustomInput, hex, if_pos hswap]
        refine ⟨?_, ?_⟩
        · refine updateExec_none _ _ _ _ (updateExec_none _ _ _ _ hkey)
        · right
          refine ⟨hid, ⟨?_, ?_, ?_⟩, fun x e' hx hxid => ?_⟩
          · exact { e0 with awaitingText := true }
          · rw [updateExec_some_iff]
            refine ⟨e0, ?_, by rw [if_pos rfl]⟩
            rw [updateExec_some_iff]
            refine ⟨e0, hex, ?_⟩
            rw [if_neg (Ne.symm hswap.2)]
          · rfl
          · obtain ⟨e1, he1, rfl⟩ := (updateExec_some_iff _ _ _ _ _).1 hx
            rw [if_neg hxid]
            obtain ⟨e2, he2, rfl⟩ := (updateExec_some_iff _ _ _ _ _).1 he1
            by_cases hxpc : x = r.promptCorrelation
            · rw [if_pos hxpc]
            · rw [if_neg hxpc]
              rcases hinv with ⟨hpc, hall⟩ | ⟨hpc, hlive, hothers⟩
              · exact absurd hpc hswap.1
              · exact hothers x e2 he2 hxpc
      · simp only [RegOp.apply, Registry.startCustomInput, hex, if_neg hswap]
        refine ⟨?_, ?_⟩
        · exact updateExec_none _ _ _ _ hkey
        · right
          refine ⟨hid, ⟨?_, ?_, ?_⟩, fun x e' hx hxid => ?_⟩
          · exact { e0 with awaitingText := true }
          · rw [updateExec_some_iff]
            exact ⟨e0, hex, by rw [if_pos rfl]⟩
          · rfl
          · obtain ⟨e1, he1, rfl⟩ := (updateExec_some_iff _ _ _ _ _).1 hx
            rw [if_neg hxid]
            rcases hinv with ⟨hpc, hall⟩ | ⟨hpc, hlive, hothers⟩
            · exact hall x e1 he1
            · have hpcid : r.promptCorrelation = id := by
                by_contra hcon
                exact hswap ⟨hpc, hcon⟩
              exact hothers x e1 he1 (hpcid ▸ hxid)
  | setPromptMessage id mid =>
    simp only [RegOp.apply, Registry.setPromptMessage]
    split
    · exact ⟨hkey, hinv⟩
    · exact ⟨hkey, hinv⟩
  | clearPrompt id =>
    by_cases hpc : r.promptCorrelation ≠ id
    · simp only [RegOp.apply, Registry.clearPrompt, if_pos hpc]
      exact ⟨hkey, hinv⟩
    · simp only [RegOp.apply, Registry.clearPrompt, if_neg hpc]
      push_neg at hpc
      refine ⟨updateExec_none _ _ _ _ hkey, ?_⟩
      left
      refine ⟨rfl, fun x e' hx => ?_⟩
      obtain ⟨e, he, rfl⟩ := (updateExec_some_iff _ _ _ _ _).1 hx
      by_cases hxid : x = id
      · rw [if_pos hxid]
      · rw [if_neg hxid]
        rcases hinv with ⟨hpc0, hall⟩ | ⟨hpc0, hlive, hothers⟩
        · exact hall x e he
        · exact hothers x e he (hpc ▸ hxid)
  | resolve id =>
    cases hex : r.executions id with
    | none => simp only [RegOp.apply, Registry.resolve, hex]; exact ⟨hkey, hinv⟩
    | some e0 =>
      by_cases hpc : r.promptCorrelation = id
      · simp only [RegOp.apply, Registry.resolve, hex, if_pos hpc]
        refine ⟨?_, ?_⟩
        · show (if "" = id then none else r.executions "") = none
          split
          · rfl
          · exact hkey
        · left
          refine ⟨rfl, fun x e' hx => ?_⟩
          dsimp only at hx
          by_cases hxid : x = id
          · rw [if_pos hxid] at hx
            cases hx
          · rw [if_neg hxid] at hx
            rcases hinv with ⟨hpc0, hall⟩ | ⟨hpc0, hlive, hothers⟩
            · exact hall x e' hx
            · exact hothers x e' hx (hpc ▸ hxid)
      · simp only [RegOp.apply, Registry.resolve, hex, if_neg hpc]
        refine ⟨?_, ?_⟩
        · show (if "" = id then none else r.executions "") = none
          split
          · rfl
          · exact hkey
        · rcases hinv with ⟨hpc0, hall⟩ | ⟨hpc0, ⟨e1, he1, ha1⟩, hothers⟩
          · left
            refine ⟨hpc0, fun x e' hx => ?_⟩
            dsimp only at hx
            by_cases hxid : x = id
            · rw [if_pos hxid] at hx
              cases hx
            · rw [if_neg hxid] at hx
              exact hall x e' hx
          · right
            refine ⟨hpc0, ⟨e1, ?_, ha1⟩, fun x e' hx hxpc => ?_⟩
            · show (if r.promptCorrelation = id then none
                    else r.executions r.promptCorrelation) = some e1
              rw [if_neg hpc]
              exact he1
            · dsimp only at hx hxpc
              by_cases hxid : x = id
              · rw [if_pos hxid] at hx
                cases hx
              · rw [if_neg hxid] at hx
                exact hothers x e' hx hxpc

/-- The strengthened invariant holds after every trace of registry
operations whose added correlation ids are non-empty. -/
theorem registryInv_runOps (r : Registry) (ops : List RegOp)
    (hr : registryInv r) (hops : ∀ op ∈ ops, op.addsNonempty = true) :
    registryInv (runOps r ops) := by
  induction ops generalizing r with
  | nil => exact hr
  | cons op rest ih =>
    exact ih (op.apply r)
      (registryInv_apply r op hr (hops op (by simp)))
      (fun o ho => hops o (by simp [ho]))

/-- The empty registry satisfies the strengthened invariant. -/
theorem registryInv_init : registryInv Registry.init := by
  refine ⟨rfl, Or.inl ⟨rfl, fun id e h => ?_⟩⟩
  cases h

/-- C2: after every sequence of registry operations (with the data
model's non-empty correlation ids), at most one live execution has
`awaiting_text = true`, and the active-prompt singleton names exactly
that execution, or the singleton is empty and no live execution awaits
text. -/
theorem C2_prompt_singleton_invariant (ops : List RegOp)
    (hops : ∀ op ∈ ops, op.addsNonempty = true) :
    promptInvariant (runOps Registry.init ops) ∧
    (∀ id1 e1 id2 e2,
      (runOps Registry.init ops).executions id1 = some e1 → e1.awaitingText = true →
      (runOps Registry.init ops).executions id2 = some e2 → e2.awaitingText = true →
      id1 = id2) ∧
    (∀ id e,
      (runOps Registry.init ops).executions id = some e → e.awaitingText = true →
      (runOps Registry.init ops).promptCorrelation = id) := by
  obtain ⟨-, hinv⟩ := registryInv_runOps Registry.init ops registryInv_init hops
  have huniq : ∀ id e,
      (runOps Registry.init ops).executions id = some e → e.awaitingText = true →
      (runOps Registry.init ops).promptCorrelation = id := by
    intro id e he ha
    rcases hinv with ⟨hpc, hall⟩ | ⟨hpc, hlive, hothers⟩
    · rw [hall id e he] at ha
      cases ha
    · by_contra hne
      rw [hothers id e he (fun hh => hne hh.symm)] at ha
      cases ha
  refine ⟨hinv, fun id1 e1 id2 e2 h1 a1 h2 a2 => ?_, huniq⟩
  rw [← huniq id1 e1 h1 a1, ← huniq id2 e2 h2 a2]

/-- C2 witness: the theorem applied to the concrete trace `wops`. -/
theorem C2_witness :
    (∀ op ∈ wops, op.addsNonempty = true) ∧
    promptInvariant (runOps Registry.init wops) := by
  exact ⟨by decide, (C2_prompt_singleton_invariant wops (by decide)).1⟩

/-- C9: when the initial chat send fails after a successful registry
add, the execution is not removed: the registry still contains it under
its correlation id, every other entry and the prompt singleton are
unchanged, and a resubmission of the same id is rejected with
`execution already exists` without touching the registry. -/
theorem C9_send_failure_keeps_execution (st : Registry) (req : Request)
    (mid : Int) (mtext : String)
    (hfresh : st.executions req.correlationID = none) :
    (submitExecution st req false mid mtext).result.status = "error" ∧
    (submitExecution st req false mid mtext).result.output =
      .vStr "failed to send telegram message" ∧
    (submitExecution st req false mid mtext).isErr = true ∧
    (submitExecution st req false mid mtext).state.executions req.correlationID =
      some (newExecution req) ∧
    (∀ x, x ≠ req.correlationID →
      (submitExecution st req false mid mtext).state.executions x = st.executions x) ∧
    (submitExecution st req false mid mtext).state.promptCorrelation = st.promptCorrelation ∧
    (submitExecution st req false mid mtext).state.promptMessageID = st.promptMessageID ∧
    (∀ sendOk mid2 mtext2,
      (submitExecution (submitExecution st req false mid mtext).state req sendOk mid2 mtext2).result.status
        = "error" ∧
      (submitExecution (submitExecution st req false mid mtext).state req sendOk mid2 mtext2).result.output
        = .vStr "execution already exists" ∧
      (submitExecution (submitExecution st req false mid mtext).state req sendOk mid2 mtext2).state
        = (submitExecution st req false mid mtext).state) := by
  simp [submitExecution, Registry.add, hfresh]
  intro x hx
  simp [hx]

/-- C9 witness: the theorem applied to the empty registry and the
concrete request `reqA`. -/
theorem C9_witness :
    Registry.init.executions reqA.correlationID = none ∧
    (submitExecution Registry.init reqA false 3 "msg").state.executions reqA.correlationID =
      some (newExecution reqA) := by
  refine ⟨rfl, ?_⟩
  exact (C9_send_failure_keeps_execution Registry.init reqA 3 "msg" rfl).2.2.2.1

/-- C10: when `StartCustomInput` is called for the execution that
already owns the active prompt, it returns previous prompt id 0 and
resets the stored prompt message id to 0 (even when a prompt message id
was previously recorded), so the earlier prompt message is never
selected for deletion by the dispatcher. -/
theorem C10_reacquire_prompt_discards_id (r : Registry) (id : String) (e : Execution)
    (hlive : r.executions id = some e) (hown : r.promptCorrelation = id) :
    (r.startCustomInput id).ok = true ∧
    (r.startCustomInput id).previousPrompt = 0 ∧
    (r.startCustomInput id).state.promptMessageID = 0 ∧
    (r.startCustomInput id).state.promptCorrelation = id ∧
    deletesPreviousPrompt (r.startCustomInput id).previousPrompt = false := by
  simp [Registry.startCustomInput, hlive, hown, deletesPreviousPrompt]

/-- C10 witness: the theorem applied to `wreg` (which records prompt
message id 7 for the owner `r1`). -/
theorem C10_witness :
    wreg.executions "r1" = some (newExecution reqA) ∧ wreg.promptCorrelation = "r1" ∧
    wreg.promptMessageID = 7 ∧
    (wreg.startCustomInput "r1").previousPrompt = 0 ∧
    (wreg.startCustomInput "r1").state.promptMessageID = 0 := by
  refine ⟨by decide, rfl, rfl, ?_, ?_⟩
  · exact (C10_reacquire_prompt_discards_id wreg "r1" (newExecution reqA) (by decide) rfl).2.1
  · exact (C10_reacquire_prompt_discards_id wreg "r1" (newExecution reqA) (by decide) rfl).2.2.1

/-- C4: the closing note computed by `noteForResult` agrees, for every
label set, result and configured timeout message, with the case analysis
stated by the specification (`noteForResultSpec`). -/
theorem C4_closing_note (fmtV : GoVal → String) (msg : Messages) (result : Result)
    (timeoutMessage : String) :
    noteForResult fmtV msg result timeoutMessage =
      noteForResultSpec fmtV msg result timeoutMessage := by
  obtain ⟨status, output, note⟩ := result
  cases output
  all_goals simp only [noteForResult, noteForResultSpec]
  all_goals split_ifs
  all_goals rfl

/-- C6 counterexample: with a mapping containing `ru` and `en`, request
language `de` and process default `ru`, `MessagesFor` returns the `en`
label set, not the default-language (`ru`) set the claim requires. -/
theorem C6_counterexample :
    MessagesFor [("ru", mRU), ("en", mEN)] "de" "ru" = mEN ∧ mEN ≠ mRU := by
  exact ⟨by decide, by decide⟩

/-- C6 (amended): label resolution lower-cases and trims the requested
code; when the result is blank the default key takes its place; the one
resulting key is looked up, falling back to `en` and then to the
all-blank set.  The process default is consulted only for a blank
request code (`MessagesFor` normalizes the default, `Handler.messageFor`
uses it verbatim). -/
theorem C6_label_resolution_amended (messages : List (String × Messages))
    (lang fallbackLang defaultLang : String) :
    MessagesFor messages lang fallbackLang =
      labelResolutionAmended messages (goToLower (goTrimSpace lang))
        (goToLower (goTrimSpace fallbackLang)) ∧
    handlerMessageFor messages defaultLang lang =
      labelResolutionAmended messages (goToLower (goTrimSpace lang)) defaultLang := by
  exact ⟨rfl, rfl⟩

theorem extractOptionsLoop_ok_iff (ss : List String) (idx : Nat) :
    (∃ vs, extractOptionsLoop (ss.map GoVal.vStr) idx = .ok vs) ↔
      ∀ s ∈ ss, goTrimSpace s ≠ "" ∧ (goTrimSpace s).length ≤ 300 := by
  induction ss generalizing idx with
  | nil => simp [extractOptionsLoop]
  | cons s rest ih =>
    simp only [List.map_cons, extractOptionsLoop, validateOption]
    by_cases h1 : goTrimSpace s = ""
    · rw [if_pos h1]
      refine iff_of_false ?_ ?_
      · rintro ⟨vs, h⟩
        cases h
      · intro hall
        exact absurd h1 (hall s (List.mem_cons_self s rest)).1
    · rw [if_neg h1]
      by_cases h2 : ((goTrimSpace s).length : Int) > 300
      · rw [if_pos h2]
        refine iff_of_false ?_ ?_
        · rintro ⟨vs, h⟩
          cases h
        · rintro hall
          have := (hall s (List.mem_cons_self s rest)).2
          omega
      · rw [if_neg h2]
        have h2' : (goTrimSpace s).length ≤ 300 := by omega
        cases hrec : extractOptionsLoop (rest.map GoVal.vStr) (idx + 1) with
        | error e =>
          refine iff_of_false ?_ ?_
          · rintro ⟨vs, h⟩
            cases h
          · intro hall
            obtain ⟨vs, hvs⟩ := (ih (idx + 1)).2
              (fun x hx => hall x (List.mem_cons_of_mem s hx))
            rw [hrec] at hvs
            cases hvs
        | ok vs =>
          refine iff_of_true ⟨goTrimSpace s :: vs, rfl⟩ ?_
          intro x hx
          rcases List.mem_cons.1 hx with rfl | hx
          · exact ⟨h1, h2'⟩
          · refine ((ih (idx + 1)).1 ⟨vs, hrec⟩) x hx

/-- C5: with the option limits derived as the claim states (defaults
`[2, 5]`, `spec.options_min` when positive, `spec.options_max` when at
least the effective minimum), an `/execute` request whose `options`
field is an array of strings passes option validation if and only if the
array length lies within the limits and every option is non-empty after
trimming and at most 300 code points. -/
theorem C5_option_count_validation (arguments spec : GoMap) (ss : List String)
    (hopts : mapLookup arguments "options" = some (.vArr (ss.map .vStr))) :
    optionLimitsFromSpec spec = (specOptionsMin spec, specOptionsMax spec) ∧
    ((∃ vs, extractOptions arguments (specOptionsMin spec) (specOptionsMax spec) = .ok vs) ↔
      (specOptionsMin spec ≤ (ss.length : Int) ∧ (ss.length : Int) ≤ specOptionsMax spec ∧
        ∀ s ∈ ss, goTrimSpace s ≠ "" ∧ (goTrimSpace s).length ≤ 300)) := by
  constructor
  · cases hmin : extractInt spec "options_min" <;>
      cases hmax : extractInt spec "options_max" <;>
      simp [optionLimitsFromSpec, specOptionsMin, specOptionsMax, hmin, hmax]
  · simp only [extractOptions, hopts]
    by_cases hcnt : ((ss.map GoVal.vStr).length : Int) < specOptionsMin spec ∨
        ((ss.map GoVal.vStr).length : Int) > specOptionsMax spec
    · rw [if_pos hcnt]
      simp only [List.length_map] at hcnt
      refine iff_of_false ?_ ?_
      · rintro ⟨vs, h⟩
        cases h
      · rintro ⟨hmin, hmax, -⟩
        omega
    · rw [if_neg hcnt]
      rw [extractOptionsLoop_ok_iff]
      push_neg at hcnt
      simp only [List.length_map] at hcnt
      exact ⟨fun hall => ⟨hcnt.1, hcnt.2, hall⟩, fun h => h.2.2⟩

/-- C5 witness: the theorem applied to the options of `wexecReq`. -/
theorem C5_witness :
    mapLookup [("question", GoVal.vStr "Question??"),
      ("options", GoVal.vArr (["A", "B"].map GoVal.vStr))] "options" =
      some (.vArr (["A", "B"].map GoVal.vStr)) ∧
    (∃ vs, extractOptions [("question", GoVal.vStr "Question??"),
      ("options", GoVal.vArr (["A", "B"].map GoVal.vStr))]
        (specOptionsMin []) (specOptionsMax []) = .ok vs) := by
  refine ⟨rfl, ?_⟩
  refine (C5_option_count_validation
    [("question", GoVal.vStr "Question??"),
     ("options", GoVal.vArr (["A", "B"].map GoVal.vStr))] [] ["A", "B"] rfl).2.mpr ?_
  refine ⟨by decide, by decide, by decide⟩

/-- C3 counterexample: a valid request whose Telegram send fails after
the registry add is answered with HTTP 202 (Accepted) carrying status
`error` and result `failed to send telegram message` — not with the
HTTP 500 the claim states. -/
theorem C3_counterexample :
    (serveHTTP "en" wexecReq false 0 "" Registry.init).1 =
      { code := 202, status := "error",
        result := .vStr "failed to send telegram message",
        correlationID := some "r1" } ∧
    (serveHTTP "en" wexecReq false 0 "" Registry.init).1.code ≠ 500 := by
  exact ⟨rfl, by intro h; cases h⟩

/-- C3 (amended): `POST /execute` responds HTTP 202 with status
`pending` and result `queued` when submission succeeds; HTTP 400 with
status `error` and the validation message when validation fails; and —
on a chat-send failure after the registry add — HTTP 202 (not 500) with
status `error` and result `failed to send telegram message`.  (The
handler's 500 branch requires an error together with an empty result
status, which `SubmitExecution` never produces.) -/
theorem C3_http_statuses_amended (cfgLang : String) (req : ExecuteRequest)
    (sendOk : Bool) (mid : Int) (mtext : String) (st : Registry) :
    (∀ msg, validateExecuteRequest cfgLang req = .error msg →
      (serveHTTP cfgLang req sendOk mid mtext st).1 =
        { code := 400, status := "error", result := .vStr msg, correlationID := none }) ∧
    (∀ ereq, validateExecuteRequest cfgLang req = .ok ereq →
      st.executions ereq.correlationID = none →
      (sendOk = true →
        (serveHTTP cfgLang req sendOk mid mtext st).1 =
          { code := 202, status := "pending", result := .vStr "queued",
            correlationID := some req.correlationID }) ∧
      (sendOk = false →
        (serveHTTP cfgLang req sendOk mid mtext st).1 =
          { code := 202, status := "error",
            result := .vStr "failed to send telegram message",
            correlationID := some req.correlationID })) := by
  constructor
  · intro msg hv
    simp [serveHTTP, hv]
  · intro ereq hv hfresh
    constructor <;> intro hs <;> subst hs <;>
      simp [serveHTTP, hv, submitExecution, Registry.add, hfresh]

/-- C3 witness: the amended theorem applied to the concrete request
`wexecReq` on the empty registry, in both the send-success and the
validation-failure configuration. -/
theorem C3_witness :
    validateExecuteRequest "en" wexecReq = .ok reqA ∧
    Registry.init.executions reqA.correlationID = none ∧
    (serveHTTP "en" wexecReq true 5 "m" Registry.init).1 =
      { code := 202, status := "pending", result := .vStr "queued",
        correlationID := some "r1" } ∧
    validateExecuteRequest "en" { wexecReq with correlationID := " " } =
      .error "correlation_id is required" ∧
    (serveHTTP "en" { wexecReq with correlationID := " " } true 5 "m" Registry.init).1 =
      { code := 400, status := "error", result := .vStr "correlation_id is required",
        correlationID := none } := by
  refine ⟨rfl, rfl, ?_, rfl, ?_⟩
  · exact ((C3_http_statuses_amended "en" wexecReq true 5 "m" Registry.init).2
      reqA rfl rfl).1 rfl
  · exact (C3_http_statuses_amended "en" { wexecReq with correlationID := " " }
      true 5 "m" Registry.init).1 "correlation_id is required" rfl

/-! ## Suffix/whitespace lemmas for the voice normalizer -/

theorem toList_asString (l : List Char) : (List.asString l).toList = l := rfl

theorem asString_toList (s : String) : (s.toList).asString = s := rfl

theorem toLower_of_goIsSpace (c : Char) (h : goIsSpace c = true) : c.toLower = c := by
  have hn : c.toNat < 65 ∨ 90 < c.toNat := by
    simp only [goIsSpace, Bool.or_eq_true, beq_iff_eq, Bool.and_eq_true,
      decide_eq_true_eq] at h
    omega
  simp only [Char.toLower]
  rw [if_neg (by omega)]

theorem dropWhile_eq_self_of_all (p : Char → Bool) (t : List Char)
    (ht : ∀ c ∈ t, p c = false) : t.dropWhile p = t := by
  cases t with
  | nil => rfl
  | cons c rest => simp [List.dropWhile_cons, ht c (by simp)]

theorem dropWhile_append_exists (p : Char → Bool) (pre t : List Char)
    (ht : t.dropWhile p = t) : ∃ x, (pre ++ t).dropWhile p = x ++ t := by
  induction pre with
  | nil => exact ⟨[], by simpa using ht⟩
  | cons a pre ih =>
    by_cases hp : p a
    · simpa [List.dropWhile_cons, hp] using ih
    · exact ⟨a :: pre, by simp [List.dropWhile_cons, hp]⟩

theorem goTrimRight_fixed (x t : List Char) (hne : t ≠ [])
    (ht : ∀ c ∈ t, goIsSpace c = false) : goTrimRight (x ++ t) = x ++ t := by
  unfold goTrimRight
  rw [List.reverse_append]
  cases htr : t.reverse with
  | nil => exact absurd (by simpa using htr) hne
  | cons c rest =>
    have hc : c ∈ t := by
      have hmem : c ∈ t.reverse := by rw [htr]; exact List.mem_cons_self c rest
      simpa using hmem
    have hcf : ¬ goIsSpace c = true := by simp [ht c hc]
    rw [List.cons_append, List.dropWhile_cons_of_neg hcf,
      ← List.cons_append, ← htr, List.reverse_append, List.reverse_reverse,
      List.reverse_reverse]

theorem suffix_goTrimSpaceL (l t : List Char) (hne : t ≠ [])
    (ht : ∀ c ∈ t, goIsSpace c = false) (h : t <:+ l) :
    t <:+ goTrimSpaceL l := by
  obtain ⟨pre, rfl⟩ := h
  obtain ⟨x, hx⟩ :=
    dropWhile_append_exists goIsSpace pre t (dropWhile_eq_self_of_all _ _ ht)
  unfold goTrimSpaceL goTrimLeft
  rw [hx, goTrimRight_fixed x t hne ht]
  exact List.suffix_append x t

/-- A non-space, non-empty case-insensitive suffix survives the
`TrimSpace`-then-`ToLower` normalization of `isOpenAICompatibleAudio`. -/
theorem goHasSuffix_lower_trim (filename ext : String)
    (hne : ext.toList ≠ [])
    (hns : ∀ c ∈ ext.toList, goIsSpace c = false)
    (h : goHasSuffix (goToLower filename) ext = true) :
    goHasSuffix (goToLower (goTrimSpace filename)) ext = true := by
  simp only [goHasSuffix, goToLower, goToLowerL, goTrimSpace, toList_asString,
    List.isSuffixOf_iff_suffix] at h ⊢
  obtain ⟨pre, hpre⟩ := h
  obtain ⟨l1, l2, hl, -, hmap2⟩ := List.map_eq_append_iff.1 hpre.symm
  have hns2 : ∀ c ∈ l2, goIsSpace c = false := by
    intro c hc
    by_contra hsp
    have hsp' : goIsSpace c = true := by
      simpa using hsp
    have hmem : c.toLower ∈ ext.toList := by
      rw [← hmap2]
      exact List.mem_map_of_mem _ hc
    have hfalse := hns _ hmem
    rw [toLower_of_goIsSpace c hsp'] at hfalse
    rw [hfalse] at hsp'
    cases hsp'
  have hl2ne : l2 ≠ [] := by
    intro hnil
    rw [hnil] at hmap2
    exact hne hmap2.symm
  have hsub : l2 <:+ goTrimSpaceL filename.toList := by
    refine suffix_goTrimSpaceL _ _ hl2ne hns2 ⟨l1, hl.symm⟩
  have hfin := hsub.map Char.toLower
  rwa [hmap2] at hfin

/-- C7 counterexample: an empty payload of accepted MIME type
`audio/mpeg` is rejected with `empty audio content` rather than being
returned unchanged as the claim states for every accepted payload. -/
theorem C7_counterexample :
    normalizeVoiceAudio (fun _ => none) [] "audio/mpeg" "voice.ogg" =
      .err "empty audio content" ∧
    normalizeVoiceAudio (fun _ => none) [] "audio/mpeg" "voice.ogg" ≠
      .ok [] "audio/mpeg" "voice.ogg" ∧
    acceptedMimes.contains (goToLower (goTrimSpace "audio/mpeg")) = true := by
  exact ⟨rfl, by decide, by decide⟩

/-- C7 (amended): for every audio payload with non-empty content whose
MIME type (case-insensitive, trimmed) is in the accepted family or whose
filename ends (case-insensitively) with an accepted extension,
`normalizeVoiceAudio` returns the content bytes, MIME type and filename
unchanged. -/
theorem C7_accepted_audio_unchanged_amended
    (transcode : List Nat → Option (List Nat))
    (content : List Nat) (mime filename : String)
    (hc : content ≠ [])
    (h : acceptedMimes.contains (goToLower (goTrimSpace mime)) = true ∨
         ∃ ext ∈ acceptedExts, goHasSuffix (goToLower filename) ext = true) :
    normalizeVoiceAudio transcode content mime filename =
      .ok content mime filename := by
  have hlen : ¬ content.length = 0 := by simpa using hc
  have hcompat : isOpenAICompatibleAudio (goToLower (goTrimSpace mime)) filename = true := by
    rcases h with hm | ⟨ext, hmem, hsuf⟩
    · unfold isOpenAICompatibleAudio
      rw [Bool.or_eq_true]
      left
      have hmem2 : goToLower (goTrimSpace mime) ∈ acceptedMimes := by
        simpa using hm
      simp only [acceptedMimes, List.mem_cons, List.mem_singleton,
        List.not_mem_nil, or_false] at hmem2
      rcases hmem2 with heq | heq | heq | heq | heq | heq | heq | heq | heq <;>
        (rw [heq]; decide)
    · unfold isOpenAICompatibleAudio
      rw [Bool.or_eq_true]
      right
      have hext_ne : ext.toList ≠ [] := by
        fin_cases hmem <;> decide
      have hext_ns : ∀ c ∈ ext.toList, goIsSpace c = false := by
        fin_cases hmem <;> decide
      have hsuf2 : goHasSuffix (goToLower (goTrimSpace filename)) ext = true :=
        goHasSuffix_lower_trim filename ext hext_ne hext_ns hsuf
      show ((goToLower (goTrimSpace filename)) != "" &&
        acceptedExts.any (fun e => goHasSuffix (goToLower (goTrimSpace filename)) e)) = true
      rw [Bool.and_eq_true]
      refine ⟨?_, ?_⟩
      · have hlist : (goToLower (goTrimSpace filename)).toList ≠ [] := by
          intro hnil
          unfold goHasSuffix at hsuf2
          rw [List.isSuffixOf_iff_suffix, hnil] at hsuf2
          exact hext_ne (by simpa using hsuf2)
        rw [bne_iff_ne]
        intro heq
        apply hlist
        rw [heq]
        rfl
      · rw [List.any_eq_true]
        exact ⟨ext, hmem, hsuf2⟩
  simp only [normalizeVoiceAudio]
  rw [if_neg hlen, if_pos hcompat]

/-- C7 witness: the amended theorem applied to a one-byte `audio/mpeg`
payload. -/
theorem C7_witness :
    ([1] : List Nat) ≠ [] ∧
    acceptedMimes.contains (goToLower (goTrimSpace "audio/mpeg")) = true ∧
    normalizeVoiceAudio (fun _ => none) [1] "audio/mpeg" "x.ogg" =
      .ok [1] "audio/mpeg" "x.ogg" := by
  refine ⟨by decide, by decide, ?_⟩
  exact C7_accepted_audio_unchanged_amended (fun _ => none) [1] "audio/mpeg" "x.ogg"
    (by decide) (Or.inl (by decide))

/-! ## Escape round-trip lemmas -/

theorem isPrefixOf_cons_ne {a b : Char} (as bs : List Char) (h : a ≠ b) :
    ¬ ((a :: as).isPrefixOf (b :: bs) = true) := by
  rw [List.isPrefixOf_iff_prefix]
  intro hp
  exact h (List.cons_prefix_cons.1 hp).1

theorem decodeMarkdownV2L_escapeWithSet (specials : List Char) (hb : '\\' ∈ specials)
    (l : List Char) : decodeMarkdownV2L (escapeWithSet specials l) = l := by
  induction l with
  | nil => rfl
  | cons c rest ih =>
    by_cases hcs : c ∈ specials
    · simp only [escapeWithSet, if_pos hcs, List.cons_append, List.nil_append]
      rw [decodeMarkdownV2L.eq_def]
      simp [ih]
    · have hcb : c ≠ '\\' := fun hh => hcs (hh ▸ hb)
      simp only [escapeWithSet, if_neg hcs, List.singleton_append]
      rw [decodeMarkdownV2L.eq_def]
      simp [hcb, ih]

theorem entityAmp : "amp;".toList = ['a', 'm', 'p', ';'] := rfl

theorem entityLt : "lt;".toList = ['l', 't', ';'] := rfl

theorem entityGt : "gt;".toList = ['g', 't', ';'] := rfl

theorem entityQuot : "quot;".toList = ['q', 'u', 'o', 't', ';'] := rfl

theorem entityNum : "#39;".toList = ['#', '3', '9', ';'] := rfl

theorem decodeHTMLL_escapeHTMLList (l : List Char) :
    decodeHTMLL (escapeHTMLList l) = l := by
  induction l with
  | nil => simp [escapeHTMLList, decodeHTMLL]
  | cons c rest ih =>
    simp only [escapeHTMLList]
    by_cases h1 : c = '&'
    · subst h1
      rw [if_pos rfl]
      show decodeHTMLL ('&' :: ('a' :: 'm' :: 'p' :: ';' :: escapeHTMLList rest)) =
        '&' :: rest
      rw [decodeHTMLL, if_pos rfl]
      simp only [entityAmp, entityLt, entityGt, entityQuot, entityNum]
      rw [if_pos (by rw [List.isPrefixOf_iff_prefix]; exact ⟨escapeHTMLList rest, rfl⟩)]
      show '&' :: decodeHTMLL (escapeHTMLList rest) = '&' :: rest
      rw [ih]
    · rw [if_neg h1]
      by_cases h2 : c = '<'
      · subst h2
        rw [if_pos rfl]
        show decodeHTMLL ('&' :: ('l' :: 't' :: ';' :: escapeHTMLList rest)) =
          '<' :: rest
        rw [decodeHTMLL, if_pos rfl]
        simp only [entityAmp, entityLt, entityGt, entityQuot, entityNum]
        rw [if_neg (isPrefixOf_cons_ne _ _ (by decide)),
          if_pos (by rw [List.isPrefixOf_iff_prefix]; exact ⟨escapeHTMLList rest, rfl⟩)]
        show '<' :: decodeHTMLL (escapeHTMLList rest) = '<' :: rest
        rw [ih]
      · rw [if_neg h2]
        by_cases h3 : c = '>'
        · subst h3
          rw [if_pos rfl]
          show decodeHTMLL ('&' :: ('g' :: 't' :: ';' :: escapeHTMLList rest)) =
            '>' :: rest
          rw [decodeHTMLL, if_pos rfl]
          simp only [entityAmp, entityLt, entityGt, entityQuot, entityNum]
          rw [if_neg (isPrefixOf_cons_ne _ _ (by decide)),
            if_neg (isPrefixOf_cons_ne _ _ (by decide)),
            if_pos (by rw [List.isPrefixOf_iff_prefix]; exact ⟨escapeHTMLList rest, rfl⟩)]
          show '>' :: decodeHTMLL (escapeHTMLList rest) = '>' :: rest
          rw [ih]
        · rw [if_neg h3]
          by_cases h4 : c = Char.ofNat 34
          · subst h4
            rw [if_pos rfl]
            show decodeHTMLL ('&' :: ('q' :: 'u' :: 'o' :: 't' :: ';' :: escapeHTMLList rest)) =
              Char.ofNat 34 :: rest
            rw [decodeHTMLL, if_pos rfl]
            simp only [entityAmp, entityLt, entityGt, entityQuot, entityNum]
            rw [if_neg (isPrefixOf_cons_ne _ _ (by decide)),
              if_neg (isPrefixOf_cons_ne _ _ (by decide)),
              if_neg (isPrefixOf_cons_ne _ _ (by decide)),
              if_pos (by rw [List.isPrefixOf_iff_prefix]; exact ⟨escapeHTMLList rest, rfl⟩)]
            show Char.ofNat 34 :: decodeHTMLL (escapeHTMLList rest) = Char.ofNat 34 :: rest
            rw [ih]
          · rw [if_neg h4]
            by_cases h5 : c = Char.ofNat 39
            · subst h5
              rw [if_pos rfl]
              show decodeHTMLL ('&' :: ('#' :: '3' :: '9' :: ';' :: escapeHTMLList rest)) =
                Char.ofNat 39 :: rest
              rw [decodeHTMLL, if_pos rfl]
              simp only [entityAmp, entityLt, entityGt, entityQuot, entityNum]
              rw [if_neg (isPrefixOf_cons_ne _ _ (by decide)),
                if_neg (isPrefixOf_cons_ne _ _ (by decide)),
                if_neg (isPrefixOf_cons_ne _ _ (by decide)),
                if_neg (isPrefixOf_cons_ne _ _ (by decide)),
                if_pos (by rw [List.isPrefixOf_iff_prefix]; exact ⟨escapeHTMLList rest, rfl⟩)]
              show Char.ofNat 39 :: decodeHTMLL (escapeHTMLList rest) = Char.ofNat 39 :: rest
              rw [ih]
            · rw [if_neg h5]
              show decodeHTMLL (c :: escapeHTMLList rest) = c :: rest
              rw [decodeHTMLL, if_neg h1]
              rw [ih]

/-- C8: for every string and both markup dialects, escaping followed by
the dialect's decoding yields the string again (MarkdownV2 body and
code-span escapes, and the five-entity HTML escape). -/
theorem C8_escape_roundtrip (s : String) :
    decodeMarkdownV2 (EscapeMarkdownV2 s) = s ∧
    decodeMarkdownV2 (EscapeMarkdownV2Code s) = s ∧
    decodeHTML (EscapeHTML s) = s := by
  refine ⟨?_, ?_, ?_⟩
  · show (decodeMarkdownV2L
      (((escapeWithSet markdownV2Specials s.toList).asString).toList)).asString = s
    rw [toList_asString,
      decodeMarkdownV2L_escapeWithSet markdownV2Specials (by decide), asString_toList]
  · show (decodeMarkdownV2L
      (((escapeWithSet markdownV2CodeSpecials s.toList).asString).toList)).asString = s
    rw [toList_asString,
      decodeMarkdownV2L_escapeWithSet markdownV2CodeSpecials (by decide), asString_toList]
  · show (decodeHTMLL (((escapeHTMLList s.toList).asString).toList)).asString = s
    rw [toList_asString, decodeHTMLL_escapeHTMLList, asString_toList]

end TelegramExecutor
